import Mathlib

/-!
Shallow embedding of the earnest library (earnest/magic.py and
earnest/earnest.py) and verification of its specification.

Modelling conventions:

- Python values are modelled by the inductive type PyVal.  Scalars
  (text strings, integers, floats, booleans, None) are carried
  directly; a float value is represented by an opaque numeric token
  because no verified operation computes with float contents, only
  with their type.  Native dicts are vdict (association lists whose
  keys are PyKey, since native dict keys may be strings or integers),
  native lists are vlist, MagicDict instances are vmdict (their
  backing _mapping always has string keys, enforced by setitem) and
  MagicList instances are vmlist.  vother stands for a value of any
  other Python type (e.g. object(), set()), carrying its class name.

- Python exceptions are modelled by PyErr, with one constructor per
  raise site; keyErrorStr / keyErrorKey / keyErrorPath carry the
  offending key exactly as the corresponding KeyError does.

- Stateful methods are modelled as functions returning Except PyErr
  together with the new contents where they mutate; a method that can
  mutate partially before raising (MutableSequence.extend, which
  appends element by element) instead returns the final contents
  paired with an optional error.

- Python dict semantics over association lists: lookups take the
  first matching binding, updates replace the binding in place
  (preserving insertion order) and deletion removes the binding.
  The reachable states always have distinct keys, so the functions
  below (which replace or remove every binding of the key) agree
  with dict behaviour on all reachable states and stay total.

- Python bool is a subclass of int, so a Bool value passes every
  isinstance check against integer types; the embedding encodes this
  in isinstanceGen.  Path components that are Python booleans are not
  representable in PathItem: they would count as integers there.
-/

set_option autoImplicit false

inductive PyKey where
  | kstr (s : String)
  | kint (n : Int)
  deriving DecidableEq

/-- Type objects passed as filter tags. tother stands for any Python
object that is not one of the six keys of NORMALISED_TYPES, carrying
a display name. -/
inductive TypeTag where
  | tbool
  | tint
  | tfloat
  | tstr
  | tdict
  | tlist
  | tother (name : String)
  deriving DecidableEq

/-- Generalised types: the values of the NORMALISED_TYPES dictionary in
magic.py (bool, Mapping, float, six.integer_types, Sequence,
six.string_types). -/
inductive GenType where
  | gbool
  | gintegerTypes
  | gfloat
  | gstringTypes
  | gmapping
  | gsequence
  deriving DecidableEq

inductive PyVal where
  | vstr (s : String)
  | vint (n : Int)
  | vfloat (tok : Nat)
  | vbool (b : Bool)
  | vnone
  | vdict (entries : List (PyKey × PyVal))
  | vlist (items : List PyVal)
  | vmdict (entries : List (String × PyVal))
  | vmlist (items : List PyVal)
  | vother (typeName : String)

/-- Components of a tuple key given to MagicMapping getitem.  pslice is
a slice component (only valid in final position); pother stands for a
component that is an instance of neither str nor int nor slice
(e.g. a float or None). -/
inductive PathItem where
  | pstr (s : String)
  | pint (n : Int)
  | pslice (start : Option String) (stop : TypeTag)
  | pother (v : PyVal)

inductive PyErr where
  | keyErrorStr (k : String)
  | keyErrorKey (k : PyKey)
  | keyErrorPath (p : List PathItem)
  | indexError
  | typeErrorEmptyPath
  | typeErrorMalformedPath (p : List PathItem)
  | typeErrorKeyMustBeString
  | typeErrorUnsupportedKey
  | typeErrorListIndices
  | typeErrorNotSubscriptable
  | valueErrorNotAllowed (typeName : String)
  | valueErrorBadTypeFilter
  | valueErrorTypeMismatch (t : TypeTag)
  | valueErrorViewSetType (t : TypeTag)
  | notImplementedErrorStep

/-- The key argument of MagicMapping getitem: a plain string, a slice
(start, stop, step — start is a string or None in every use the
claims exercise, step only matters through its presence), a tuple of
path components, or anything else (kother), which hits the final
TypeError branch. -/
inductive MKey where
  | kstr (s : String)
  | kslice (start : Option String) (stop : TypeTag) (step : Option Unit)
  | ktuple (path : List PathItem)
  | kother (v : PyVal)

/-- Result of MagicMapping getitem: either a value or a
TypeFilteredValueMapping view over the mapping it was called on,
carrying the requested type tag (the view holds the mapping itself by
reference; its operations below therefore take the current backing
entries as an argument). -/
inductive GetResult where
  | val (v : PyVal)
  | view (t : TypeTag)

/-- Classifies errors caught by except (KeyError, IndexError). -/
def isKeyOrIndexError : PyErr → Bool
  | .keyErrorStr _ => true
  | .keyErrorKey _ => true
  | .keyErrorPath _ => true
  | .indexError => true
  | _ => false

/-- Classifies errors caught by except (IndexError, KeyError, TypeError)
in lookup_path. -/
def isLookupCatchable : PyErr → Bool
  | .keyErrorStr _ => true
  | .keyErrorKey _ => true
  | .keyErrorPath _ => true
  | .indexError => true
  | .typeErrorEmptyPath => true
  | .typeErrorMalformedPath _ => true
  | .typeErrorKeyMustBeString => true
  | .typeErrorUnsupportedKey => true
  | .typeErrorListIndices => true
  | .typeErrorNotSubscriptable => true
  | _ => false

def exceptIsError {e a : Type} : Except e a → Bool
  | .error _ => true
  | .ok _ => false

/-! Association list operations mirroring Python dict behaviour. -/

def assocGet (m : List (String × PyVal)) (k : String) : Option PyVal :=
  (m.find? (fun kv => kv.1 == k)).map (fun kv => kv.2)

def hasKey (m : List (String × PyVal)) (k : String) : Bool :=
  m.any (fun kv => kv.1 == k)

def setEntry (m : List (String × PyVal)) (k : String) (v : PyVal) :
    List (String × PyVal) :=
  if hasKey m k then m.map (fun kv => if kv.1 == k then (k, v) else kv)
  else m ++ [(k, v)]

def delEntry (m : List (String × PyVal)) (k : String) :
    List (String × PyVal) :=
  m.filter (fun kv => kv.1 != k)

/-- Python list indexing with negative-index support: l[i] is
l[len(l)+i] for negative i, and IndexError (None here) out of range. -/
def listGetInt (items : List PyVal) (i : Int) : Option PyVal :=
  let j : Int := if i < 0 then i + items.length else i
  if j < 0 then none else items.get? j.toNat

/-- Python list.insert clamps the index instead of failing. -/
def pyInsertAt (items : List PyVal) (i : Int) (v : PyVal) : List PyVal :=
  let j : Int := if i < 0 then max 0 (i + items.length) else min i items.length
  items.take j.toNat ++ v :: items.drop j.toNat

/-- Test against ATOMIC_TYPES = integer, string, bool, float, NoneType. -/
def isAtomic : PyVal → Bool
  | .vstr _ => true
  | .vint _ => true
  | .vfloat _ => true
  | .vbool _ => true
  | .vnone => true
  | _ => false

def isMagicContainer : PyVal → Bool
  | .vmdict _ => true
  | .vmlist _ => true
  | _ => false

/-! enchant_value and the recursive wrapping it performs.  Wrapping a
mapping runs MagicDict(value): a fresh empty dict updated entry by
entry through MagicDict setitem, which checks that the key is a
string and enchants the value; wrapping a sequence runs
MagicList(value), which extends a fresh list enchanting every item.
A value of any other type raises ValueError.  The partially built
fresh container is discarded when construction fails, so Except is an
exact model here. -/

mutual

def enchant_value : PyVal → Except PyErr PyVal
  | .vstr s => .ok (.vstr s)
  | .vint n => .ok (.vint n)
  | .vfloat t => .ok (.vfloat t)
  | .vbool b => .ok (.vbool b)
  | .vnone => .ok .vnone
  | .vdict es =>
    match enchantNativeEntries es with
    | .ok es2 => .ok (.vmdict es2)
    | .error e => .error e
  | .vmdict es =>
    match enchantMagicEntries es with
    | .ok es2 => .ok (.vmdict es2)
    | .error e => .error e
  | .vlist items =>
    match enchantItems items with
    | .ok items2 => .ok (.vmlist items2)
    | .error e => .error e
  | .vmlist items =>
    match enchantItems items with
    | .ok items2 => .ok (.vmlist items2)
    | .error e => .error e
  | .vother name => .error (.valueErrorNotAllowed name)

def enchantNativeEntries : List (PyKey × PyVal) → Except PyErr (List (String × PyVal))
  | [] => .ok []
  | (k, v) :: rest =>
    match k with
    | .kstr s =>
      match enchant_value v with
      | .ok w =>
        match enchantNativeEntries rest with
        | .ok rest2 => .ok ((s, w) :: rest2)
        | .error e => .error e
      | .error e => .error e
    | .kint _ => .error .typeErrorKeyMustBeString

def enchantMagicEntries : List (String × PyVal) → Except PyErr (List (String × PyVal))
  | [] => .ok []
  | (s, v) :: rest =>
    match enchant_value v with
    | .ok w =>
      match enchantMagicEntries rest with
      | .ok rest2 => .ok ((s, w) :: rest2)
      | .error e => .error e
    | .error e => .error e

def enchantItems : List PyVal → Except PyErr (List PyVal)
  | [] => .ok []
  | v :: rest =>
    match enchant_value v with
    | .ok w =>
      match enchantItems rest with
      | .ok rest2 => .ok (w :: rest2)
      | .error e => .error e
    | .error e => .error e

end

/-! The wrapping invariant: every value observable inside a magic
container is a scalar, a MagicDict or a MagicList, recursively. -/

mutual

def isEnchanted : PyVal → Bool
  | .vstr _ => true
  | .vint _ => true
  | .vfloat _ => true
  | .vbool _ => true
  | .vnone => true
  | .vdict _ => false
  | .vlist _ => false
  | .vmdict es => entriesEnchanted es
  | .vmlist items => itemsEnchanted items
  | .vother _ => false

def entriesEnchanted : List (String × PyVal) → Bool
  | [] => true
  | (_, v) :: rest => isEnchanted v && entriesEnchanted rest

def itemsEnchanted : List PyVal → Bool
  | [] => true
  | v :: rest => isEnchanted v && itemsEnchanted rest

end

/-- generalise_type: NORMALISED_TYPES lookup.  bool maps to bool, dict
to collections.abc.Mapping, float to float, int to six.integer_types,
list to collections.abc.Sequence, str to six.string_types; any other
tag raises ValueError (the invalid-type-filter error). -/
def generalise_type : TypeTag → Except PyErr GenType
  | .tbool => .ok .gbool
  | .tint => .ok .gintegerTypes
  | .tfloat => .ok .gfloat
  | .tstr => .ok .gstringTypes
  | .tdict => .ok .gmapping
  | .tlist => .ok .gsequence
  | .tother _ => .error .valueErrorBadTypeFilter

def isBoolVal : PyVal → Bool
  | .vbool _ => true
  | _ => false

def isIntVal : PyVal → Bool
  | .vint _ => true
  | _ => false

def isFloatVal : PyVal → Bool
  | .vfloat _ => true
  | _ => false

def isStrVal : PyVal → Bool
  | .vstr _ => true
  | _ => false

def isMappingVal : PyVal → Bool
  | .vdict _ => true
  | .vmdict _ => true
  | _ => false

def isSequenceVal : PyVal → Bool
  | .vlist _ => true
  | .vmlist _ => true
  | .vstr _ => true
  | _ => false

/-- isinstance against a generalised type.  Python bool is a subclass
of int, so booleans satisfy gintegerTypes; str is registered as a
collections.abc.Sequence, so strings satisfy gsequence (the FIXME in
magic.py); both native and magic containers are registered Mappings
resp. Sequences. -/
def isinstanceGen (v : PyVal) : GenType → Bool
  | .gbool => isBoolVal v
  | .gintegerTypes => isIntVal v || isBoolVal v
  | .gfloat => isFloatVal v
  | .gstringTypes => isStrVal v
  | .gmapping => isMappingVal v
  | .gsequence => isSequenceVal v

/-- The recognized tag naming the type of a value, where a MagicDict
or native dict is of kind dict and a MagicList or native list of kind
list; None and foreign values have no recognized tag. -/
def tagOf : PyVal → Option TypeTag
  | .vstr _ => some .tstr
  | .vint _ => some .tint
  | .vfloat _ => some .tfloat
  | .vbool _ => some .tbool
  | .vnone => none
  | .vdict _ => some .tdict
  | .vlist _ => some .tlist
  | .vmdict _ => some .tdict
  | .vmlist _ => some .tlist
  | .vother _ => none

/-! TypeFilteredValueMapping operations.  The view stores a reference
to the MagicMapping it was created from and the requested type; every
operation below takes the current backing entries as an argument,
which is exactly the live (snapshot-free) reference semantics.  Keys
reaching the backing MagicDict through the view in the verified
claims are plain strings, for which MagicMapping getitem is the
direct mapping lookup modelled here. -/

/-- Read through the view: value = mapping[key] first (KeyError if the
key is absent), then the isinstance check against the generalised
type, raising KeyError(key) on mismatch. -/
def tfvmGetitem (m : List (String × PyVal)) (t : TypeTag) (key : String) :
    Except PyErr PyVal :=
  match assocGet m key with
  | none => .error (.keyErrorStr key)
  | some v =>
    match generalise_type t with
    | .error e => .error e
    | .ok g =>
      if isinstanceGen v g then .ok v else .error (.keyErrorStr key)

/-- Write through the view: isinstance check first (ValueError on
mismatch), then mapping[key] = value, which is MagicDict setitem and
therefore enchants the value. -/
def tfvmSetitem (m : List (String × PyVal)) (t : TypeTag) (key : String)
    (v : PyVal) : Except PyErr (List (String × PyVal)) :=
  match generalise_type t with
  | .error e => .error e
  | .ok g =>
    if isinstanceGen v g then
      match enchant_value v with
      | .ok w => .ok (setEntry m key w)
      | .error e => .error e
    else .error (.valueErrorViewSetType t)

/-- Delete through the view: self[key] first (the type check), then
del mapping[key]. -/
def tfvmDelitem (m : List (String × PyVal)) (t : TypeTag) (key : String) :
    Except PyErr (List (String × PyVal)) :=
  match tfvmGetitem m t key with
  | .error e => .error e
  | .ok _ => .ok (delEntry m key)

/-- Iteration: generalise_type first, then yield exactly the keys of
entries whose value is an instance of the generalised type, in
backing order — computed from the current entries on every call. -/
def tfvmIterKeys (m : List (String × PyVal)) (t : TypeTag) :
    Except PyErr (List String) :=
  match generalise_type t with
  | .error e => .error e
  | .ok g => .ok ((m.filter (fun kv => isinstanceGen kv.2 g)).map (fun kv => kv.1))

/-- Length: cardinality.count over the iterator. -/
def tfvmLen (m : List (String × PyVal)) (t : TypeTag) : Except PyErr Nat :=
  (tfvmIterKeys m t).map List.length

/-! MagicMapping getitem.  The subject of every call below is a
MagicDict, given by its backing entries. -/

/-- Plain string lookup in the backing mapping. -/
def mappingGetStr (m : List (String × PyVal)) (s : String) :
    Except PyErr PyVal :=
  match assocGet m s with
  | some v => .ok v
  | none => .error (.keyErrorStr s)

/-- One iteration of the tuple-path loop: the kind check
(types_are_correct), the container lookup with KeyError/IndexError
caught, and the check that the result is again a magic container.
Every failure is reported as None, which the loop converts into
KeyError over the consumed prefix. -/
def stepOk (container : PyVal) (k : PathItem) : Option PyVal :=
  match container, k with
  | .vmdict es, .pstr s =>
    match assocGet es s with
    | some c => if isMagicContainer c then some c else none
    | none => none
  | .vmlist items, .pint i =>
    match listGetInt items i with
    | some c => if isMagicContainer c then some c else none
    | none => none
  | _, _ => none

/-- The loop over path[:-1]: pos is the 1-based enumerate counter and
orig the whole path, used for the KeyError(path[:pos]) payloads. -/
def walkLoop : PyVal → List PathItem → Nat → List PathItem → Except PyErr PyVal
  | container, [], _, _ => .ok container
  | container, k :: rest, pos, orig =>
    match stepOk container k with
    | some c => walkLoop c rest (pos + 1) orig
    | none => .error (.keyErrorPath (orig.take pos))

/-- Chained stepOk, used to state which prefixes of a path resolve. -/
def chainSteps : PyVal → List PathItem → Option PyVal
  | c, [] => some c
  | c, k :: rest =>
    match stepOk c k with
    | some c2 => chainSteps c2 rest
    | none => none

/-- MagicSequence getitem: integer indexing of the backing list;
anything else is a TypeError from native list indexing. -/
def magicSequenceGetitem (items : List PyVal) (k : PathItem) :
    Except PyErr GetResult :=
  match k with
  | .pint i =>
    match listGetInt items i with
    | some v => .ok (.val v)
    | none => .error .indexError
  | _ => .error .typeErrorListIndices

/-- The non-tuple part of MagicMapping getitem: plain string keys,
slices, and the trailing TypeError for unsupported keys.  A tuple
path delegates its final component here (tuple components are never
themselves tuples in the embedding). -/
def magicMappingGetitemNT (m : List (String × PyVal)) (key : MKey) :
    Except PyErr GetResult :=
  match key with
  | .kstr s =>
    match mappingGetStr m s with
    | .ok v => .ok (.val v)
    | .error e => .error e
  | .kslice start stop step =>
    if step.isSome then .error .notImplementedErrorStep
    else
      match start with
      | none => .ok (.view stop)
      | some s =>
        match mappingGetStr m s with
        | .error e => .error e
        | .ok v =>
          match generalise_type stop with
          | .error e => .error e
          | .ok g =>
            if isinstanceGen v g then .ok (.val v)
            else .error (.valueErrorTypeMismatch stop)
  | .ktuple _ => .error .typeErrorUnsupportedKey
  | .kother _ => .error .typeErrorUnsupportedKey

/-- Conversion of a final path component into the key passed to the
nested container when that container is a MagicDict: an integer (or
any other non-string non-slice value) hits the unsupported-key
TypeError branch of MagicMapping getitem. -/
def pathItemToMKey : PathItem → MKey
  | .pstr s => .kstr s
  | .pint n => .kother (.vint n)
  | .pslice start stop => .kslice start stop none
  | .pother v => .kother v

/-- Delegation of the final path component to the resolved container.
After the loop the container is the subject MagicDict itself or a
nested MagicDict or MagicList; the fallback branch is unreachable. -/
def containerGetItem (container : PyVal) (k : PathItem) :
    Except PyErr GetResult :=
  match container with
  | .vmdict es => magicMappingGetitemNT es (pathItemToMKey k)
  | .vmlist items => magicSequenceGetitem items k
  | _ => .error .typeErrorNotSubscriptable

/-- The final lookup of a tuple path, with KeyError and IndexError
re-raised as KeyError carrying the full path. -/
def finalStep (container : PyVal) (last : PathItem) (orig : List PathItem) :
    Except PyErr GetResult :=
  match containerGetItem container last with
  | .error e => if isKeyOrIndexError e then .error (.keyErrorPath orig) else .error e
  | .ok r => .ok r

/-- Is a path component an instance of str or int (the eager
validation applied to every component but the last)? -/
def isStrOrInt : PathItem → Bool
  | .pstr _ => true
  | .pint _ => true
  | _ => false

/-- The tuple branch of MagicMapping getitem: empty-path check, eager
validation of all non-terminal components, the traversal loop, and
the delegated final lookup. -/
def tupleLookup (m : List (String × PyVal)) (path : List PathItem) :
    Except PyErr GetResult :=
  if path.isEmpty then .error .typeErrorEmptyPath
  else if path.dropLast.all isStrOrInt then
    match walkLoop (.vmdict m) path.dropLast 1 path with
    | .error e => .error e
    | .ok c => finalStep c (path.getLastD (.pstr "")) path
  else .error (.typeErrorMalformedPath path)

/-- MagicMapping getitem, full dispatch on the key shape. -/
def magicMappingGetitem (m : List (String × PyVal)) (key : MKey) :
    Except PyErr GetResult :=
  match key with
  | .ktuple path => tupleLookup m path
  | k => magicMappingGetitemNT m k

/-! Mutations of MagicDict and MagicList. -/

/-- MagicDict setitem: key must be a string (TypeError otherwise),
the value is enchanted, then stored. -/
def magicDictSetitem (m : List (String × PyVal)) (key : PyKey) (v : PyVal) :
    Except PyErr (List (String × PyVal)) :=
  match key with
  | .kstr s =>
    match enchant_value v with
    | .ok w => .ok (setEntry m s w)
    | .error e => .error e
  | .kint _ => .error .typeErrorKeyMustBeString

/-- MagicDict delitem: key must be a string, missing keys raise
KeyError. -/
def magicDictDelitem (m : List (String × PyVal)) (key : PyKey) :
    Except PyErr (List (String × PyVal)) :=
  match key with
  | .kstr s => if hasKey m s then .ok (delEntry m s) else .error (.keyErrorStr s)
  | .kint _ => .error .typeErrorKeyMustBeString

/-- MagicList setitem: the value is enchanted, then stored at the
index (IndexError out of range). -/
def magicListSetitem (items : List PyVal) (i : Int) (v : PyVal) :
    Except PyErr (List PyVal) :=
  match enchant_value v with
  | .error e => .error e
  | .ok w =>
    let j : Int := if i < 0 then i + items.length else i
    if 0 ≤ j ∧ j < items.length then
      .ok (items.set j.toNat w)
    else .error .indexError

/-- MagicList insert: the value is enchanted, then inserted at the
clamped index (list.insert never raises for any index). -/
def magicListInsert (items : List PyVal) (i : Int) (v : PyVal) :
    Except PyErr (List PyVal) :=
  match enchant_value v with
  | .error e => .error e
  | .ok w => .ok (pyInsertAt items i w)

/-- MutableSequence.extend appends the values one by one through
insert, so a failing enchantment leaves the successfully enchanted
earlier items appended: the result is the final contents paired with
the error, if any. -/
def magicListExtend (items : List PyVal) : List PyVal → List PyVal × Option PyErr
  | [] => (items, none)
  | v :: rest =>
    match enchant_value v with
    | .ok w => magicListExtend (items ++ [w]) rest
    | .error e => (items, some e)

/-- Mutations of a MagicDict used to exercise the live semantics of a
type-filtered view. -/
inductive DictMut where
  | set (k : PyKey) (v : PyVal)
  | del (k : PyKey)

/-- Application of one mutation; a failing mutation leaves the
contents unchanged (setitem and delitem both raise before any
write). -/
def applyMut (m : List (String × PyVal)) : DictMut → List (String × PyVal)
  | .set k v =>
    match magicDictSetitem m k v with
    | .ok m2 => m2
    | .error _ => m
  | .del k =>
    match magicDictDelitem m k with
    | .ok m2 => m2
    | .error _ => m

def applyMuts (m : List (String × PyVal)) (muts : List DictMut) :
    List (String × PyVal) :=
  muts.foldl applyMut m

/-! The NothingContainer singleton: a stateless value whose getitem
returns the module-level singleton, whose iteration is empty, whose
length is zero and whose truth value (taken from len, since no bool
method is defined) is false. -/

inductive NothingContainerT where
  | mk

def NothingContainer : NothingContainerT := .mk

def ncGetitem (_self : NothingContainerT) (_key : PyVal) : NothingContainerT :=
  NothingContainer

def ncIter : List PyVal := []

def ncLen : Nat := 0

def ncBool : Bool := ncLen != 0

/-! lookup_path and its path handling (earnest/earnest.py).  Paths are
either pre-segmented lists of components (strings or integers) or a
single dotted string.  String splitting, joining and the int()
coercion are modelled on lists of characters; int() is modelled as an
optional sign followed by decimal digits (Python int() additionally
tolerates surrounding whitespace and underscores between digits,
which no verified statement exercises). -/

def digitChar : Nat → Char
  | 0 => '0'
  | 1 => '1'
  | 2 => '2'
  | 3 => '3'
  | 4 => '4'
  | 5 => '5'
  | 6 => '6'
  | 7 => '7'
  | 8 => '8'
  | 9 => '9'
  | _ => '*'

def charDigit (c : Char) : Option Nat :=
  if c = '0' then some 0
  else if c = '1' then some 1
  else if c = '2' then some 2
  else if c = '3' then some 3
  else if c = '4' then some 4
  else if c = '5' then some 5
  else if c = '6' then some 6
  else if c = '7' then some 7
  else if c = '8' then some 8
  else if c = '9' then some 9
  else none

def natToChars (n : Nat) : List Char :=
  if n = 0 then ['0'] else ((Nat.digits 10 n).reverse).map digitChar

/-- Decimal digit string to Nat; fails on the empty string or any
non-digit character. -/
def parseNatChars (cs : List Char) : Option Nat :=
  if cs.isEmpty then none
  else (cs.mapM charDigit).map (fun ds => Nat.ofDigits 10 ds.reverse)

/-- str() of a Python integer. -/
def pyIntToString (n : Int) : String :=
  if n < 0 then String.mk ('-' :: natToChars n.natAbs)
  else String.mk (natToChars n.toNat)

/-- int() applied to a string, as an Option. -/
def pyParseInt (s : String) : Option Int :=
  match s.data with
  | [] => none
  | c :: rest =>
    if c = '-' then (parseNatChars rest).map (fun m => -(Int.ofNat m))
    else if c = '+' then (parseNatChars rest).map Int.ofNat
    else (parseNatChars (c :: rest)).map Int.ofNat

/-- str.split over characters: "a.b".split of the dot gives the parts
between separator occurrences, with empty parts preserved and the
empty string splitting into one empty part. -/
def splitChars (sep : Char) : List Char → List (List Char)
  | [] => [[]]
  | c :: rest =>
    match splitChars sep rest with
    | [] => [[]]
    | p :: ps => if c = sep then [] :: p :: ps else (c :: p) :: ps

/-- sep.join over characters. -/
def joinChars (sep : Char) : List (List Char) → List Char
  | [] => []
  | [p] => p
  | p :: q :: rest => p ++ sep :: joinChars sep (q :: rest)

def pySplitDots (s : String) : List String :=
  (splitChars '.' s.data).map String.mk

def pyJoinDots (parts : List String) : String :=
  String.mk (joinChars '.' (parts.map String.data))

/-- The display form of a path component, as used by
".".join(str(c) for c in p). -/
def compStr : PyKey → String
  | .kstr s => s
  | .kint n => pyIntToString n

/-- The coercion in lookup_path: components parsing as integers become
integer indices, the rest stay strings. -/
def coerceComp (s : String) : PyKey :=
  match pyParseInt s with
  | some n => .kint n
  | none => .kstr s

/-- One indexing step x[y] of the reduce in lookup_path, on native
structures and, when reached, on magic containers via their getitem.
Scalars other than strings are not subscriptable; indexing a string
by an integer yields a one-character string. -/
def lookupStep (x : PyVal) (y : PyKey) : Except PyErr PyVal :=
  match x with
  | .vdict es =>
    match (es.find? (fun kv => kv.1 == y)).map (fun kv => kv.2) with
    | some v => .ok v
    | none => .error (.keyErrorKey y)
  | .vlist items =>
    match y with
    | .kint i =>
      match listGetInt items i with
      | some v => .ok v
      | none => .error .indexError
    | .kstr _ => .error .typeErrorListIndices
  | .vmdict es =>
    match y with
    | .kstr s => mappingGetStr es s
    | .kint _ => .error .typeErrorUnsupportedKey
  | .vmlist items =>
    match y with
    | .kint i =>
      match listGetInt items i with
      | some v => .ok v
      | none => .error .indexError
    | .kstr _ => .error .typeErrorListIndices
  | .vstr s =>
    match y with
    | .kint i =>
      match listGetInt (s.data.map (fun c => .vstr (String.mk [c]))) i with
      | some v => .ok v
      | none => .error .indexError
    | .kstr _ => .error .typeErrorNotSubscriptable
  | _ => .error .typeErrorNotSubscriptable

/-- functools.reduce of the indexing steps. -/
def reducePath (x : PyVal) : List PyKey → Except PyErr PyVal
  | [] => .ok x
  | y :: rest =>
    match lookupStep x y with
    | .ok x2 => reducePath x2 rest
    | .error e => .error e

/-- lookup_path on a pre-segmented path: the reduce, with IndexError,
KeyError and TypeError replaced by the default when one was given. -/
def lookup_path_seq (obj : PyVal) (path : List PyKey)
    (default : Option PyVal) : Except PyErr PyVal :=
  match reducePath obj path with
  | .ok v => .ok v
  | .error e =>
    if isLookupCatchable e then
      match default with
      | some d => .ok d
      | none => .error e
    else .error e

/-- lookup_path on a dotted string: split on dots, coerce numeric
components to integers, then proceed as with a segmented path. -/
def lookup_path_str (obj : PyVal) (path : String)
    (default : Option PyVal) : Except PyErr PyVal :=
  lookup_path_seq obj ((pySplitDots path).map coerceComp) default

/-- Path components for which the dotted rendering is faithful: an
integer, or a text string that neither contains the separator dot nor
parses as an integer. -/
def goodComp : PyKey → Bool
  | .kint _ => true
  | .kstr s => s.data.all (fun c => c != '.') && (pyParseInt s).isNone

/-- The dotted rendering ".".join(str(c) for c in comps). -/
def dottedOf (comps : List PyKey) : String :=
  pyJoinDots (comps.map compStr)


/-! Helper lemmas about the association-list operations. -/

theorem assocGet_mem {m : List (String × PyVal)} {k : String} {v : PyVal}
    (h : assocGet m k = some v) : (k, v) ∈ m := by
  unfold assocGet at h
  obtain ⟨kv, hfind, hv⟩ := Option.map_eq_some'.mp h
  have hk := List.find?_some hfind
  have hmem := List.mem_of_find?_eq_some hfind
  have hkv : kv = (k, v) := by
    obtain ⟨a, b⟩ := kv
    simp only [beq_iff_eq] at hk
    simp_all
  rwa [hkv] at hmem

theorem mem_delEntry {m : List (String × PyVal)} {k : String}
    {q : String × PyVal} (h : q ∈ delEntry m k) : q ∈ m ∧ q.1 ≠ k := by
  unfold delEntry at h
  have := List.mem_filter.mp h
  simpa [bne_iff_ne] using this

theorem assocGet_delEntry_self (m : List (String × PyVal)) (k : String) :
    assocGet (delEntry m k) k = none := by
  unfold assocGet
  rw [Option.map_eq_none']
  rw [List.find?_eq_none]
  intro kv hmem
  have := (mem_delEntry hmem).2
  simpa using this

theorem mem_setEntry_self (m : List (String × PyVal)) (k : String) (v : PyVal) :
    (k, v) ∈ setEntry m k v := by
  unfold setEntry
  by_cases h : hasKey m k
  · simp only [h, if_true]
    unfold hasKey at h
    obtain ⟨kv, hmem, hk⟩ := List.any_eq_true.mp h
    exact List.mem_map.mpr ⟨kv, hmem, by simp [hk]⟩
  · simp only [h, if_false]
    exact List.mem_append_right _ (by simp)

theorem setEntry_key_val {m : List (String × PyVal)} {k : String} {v : PyVal}
    {q : String × PyVal} (h : q ∈ setEntry m k v) (hk : q.1 = k) : q.2 = v := by
  unfold setEntry at h
  by_cases hh : hasKey m k
  · simp only [hh, if_true] at h
    obtain ⟨kv, _, himg⟩ := List.mem_map.mp h
    by_cases hc : kv.1 == k
    · simp [hc] at himg
      simp [← himg]
    · simp [hc] at himg
      rw [← himg] at hk
      simp [hk] at hc
  · simp only [hh, if_false] at h
    rcases List.mem_append.mp h with hm | hs
    · exfalso
      apply hh
      unfold hasKey
      exact List.any_eq_true.mpr ⟨q, hm, by simp [hk]⟩
    · simp at hs
      simp [hs]

theorem assocGet_nodup_unique {m : List (String × PyVal)} {k : String}
    {v : PyVal} {q : String × PyVal} (hnd : (m.map Prod.fst).Nodup)
    (h : assocGet m k = some v) (hq : q ∈ m) (hk : q.1 = k) : q.2 = v := by
  induction m with
  | nil => cases hq
  | cons kv rest ih =>
    simp only [List.map_cons, List.nodup_cons] at hnd
    unfold assocGet at h
    simp only [List.find?_cons] at h
    by_cases hc : kv.1 == k
    · simp only [hc, cond_true] at h
      simp only [Option.map_some'] at h
      rcases List.mem_cons.mp hq with rfl | hrest
      · simpa using h
      · exfalso
        apply hnd.1
        have : q.1 ∈ rest.map Prod.fst := List.mem_map_of_mem _ hrest
        rw [hk] at this
        have hkv : kv.1 = k := by simpa using hc
        rwa [hkv]
    · simp only [hc, cond_false] at h
      rcases List.mem_cons.mp hq with rfl | hrest
      · exfalso
        rw [hk] at hc
        simp at hc
      · exact ih hnd.2 (by unfold assocGet; exact h) hrest

theorem nothingContainer_unique (x : NothingContainerT) : x = NothingContainer := by
  cases x
  rfl

/-- C9: the NothingContainer singleton is absorbing: indexing it with
any key, any number of times, returns the singleton itself; its
iteration yields no items, its length is zero, and its truth value is
false. -/
theorem c9_nothing_container_absorbing :
    (∀ ks : List PyVal, List.foldl ncGetitem NothingContainer ks = NothingContainer)
    ∧ ncIter = ([] : List PyVal) ∧ ncLen = 0 ∧ ncBool = false := by
  refine ⟨?_, rfl, rfl, rfl⟩
  intro ks
  exact nothingContainer_unique _

/-- C2: tuple-path validation in MagicMapping getitem happens before
any traversal: for every backing mapping, an empty path raises the
empty-path TypeError and a path with a non-terminal component that is
neither a text string nor an integer raises the malformed-path
TypeError, in both cases independently of the mapping contents (the
right-hand sides do not mention m). -/
theorem c2_malformed_path_rejected_eagerly :
    ∀ (m : List (String × PyVal)) (path : List PathItem),
      (path = [] →
        magicMappingGetitem m (.ktuple path) = .error .typeErrorEmptyPath)
      ∧ (path.dropLast.all isStrOrInt = false →
        magicMappingGetitem m (.ktuple path) =
          .error (.typeErrorMalformedPath path)) := by
  intro m path
  constructor
  · intro h
    subst h
    rfl
  · intro h
    have hne : path.isEmpty = false := by
      cases path with
      | nil => simp at h
      | cons p ps => rfl
    simp only [magicMappingGetitem, tupleLookup, hne, h]
    simp

/-- Witness for C2 at concrete inputs: the empty path and the path
(1.23, None) from the test suite, on the mapping from the tests. -/
theorem c2_witness :
    magicMappingGetitem [("s1", PyVal.vstr "hello")] (.ktuple []) =
      .error .typeErrorEmptyPath
    ∧ magicMappingGetitem [("s1", PyVal.vstr "hello")]
        (.ktuple [.pother (.vfloat 0), .pother .vnone]) =
      .error (.typeErrorMalformedPath [.pother (.vfloat 0), .pother .vnone]) := by
  constructor
  · exact (c2_malformed_path_rejected_eagerly _ _).1 rfl
  · exact (c2_malformed_path_rejected_eagerly _ _).2 rfl

theorem walkLoop_chain {pfx : List PathItem} :
    ∀ {c c2 : PyVal} (rest : List PathItem) (pos : Nat) (orig : List PathItem),
      chainSteps c pfx = some c2 →
      walkLoop c (pfx ++ rest) pos orig = walkLoop c2 rest (pos + pfx.length) orig := by
  induction pfx with
  | nil =>
    intro c c2 rest pos orig h
    simp only [chainSteps] at h
    cases h
    simp
  | cons k pfx ih =>
    intro c c2 rest pos orig h
    cases hs : stepOk c k with
    | none => simp [chainSteps, hs] at h
    | some c1 =>
      simp only [chainSteps, hs] at h
      simp only [List.cons_append, walkLoop, hs]
      have h2 := ih rest (pos + 1) orig h
      have h3 : pos + 1 + pfx.length = pos + (k :: pfx).length := by
        simp only [List.length_cons]
        omega
      rw [h3] at h2
      exact h2

theorem walkLoop_fail {c : PyVal} {k : PathItem} (rest : List PathItem)
    (pos : Nat) (orig : List PathItem) (h : stepOk c k = none) :
    walkLoop c (k :: rest) pos orig = .error (.keyErrorPath (orig.take pos)) := by
  simp only [walkLoop, h]

/-- C1: when the non-terminal components of a tuple path are all
strings or integers, a failure while resolving a non-terminal
component (kind mismatch, missing key, out-of-range index, or a
non-container intermediate value — exactly the cases where stepOk
yields none) raises KeyError carrying the consumed prefix up to and
including the failing component; a KeyError or IndexError from the
delegated final lookup instead raises KeyError carrying the full
path. -/
theorem c1_path_error_payloads :
    (∀ (m : List (String × PyVal)) (pfx : List PathItem) (k : PathItem)
       (rest : List PathItem) (last : PathItem) (c : PyVal),
      ((pfx ++ k :: rest).all isStrOrInt = true) →
      chainSteps (.vmdict m) pfx = some c →
      stepOk c k = none →
      magicMappingGetitem m (.ktuple ((pfx ++ k :: rest) ++ [last])) =
        .error (.keyErrorPath (pfx ++ [k])))
    ∧ (∀ (m : List (String × PyVal)) (nonfinal : List PathItem)
         (last : PathItem) (c : PyVal) (e : PyErr),
      (nonfinal.all isStrOrInt = true) →
      chainSteps (.vmdict m) nonfinal = some c →
      containerGetItem c last = .error e →
      isKeyOrIndexError e = true →
      magicMappingGetitem m (.ktuple (nonfinal ++ [last])) =
        .error (.keyErrorPath (nonfinal ++ [last]))) := by
  constructor
  · intro m pfx k rest last c hall hchain hstep
    have hne : ((pfx ++ k :: rest) ++ [last]).isEmpty = false := by simp
    simp only [magicMappingGetitem, tupleLookup, hne, List.dropLast_concat,
      hall, if_true, Bool.false_eq_true, if_false]
    have hw : walkLoop (.vmdict m) (pfx ++ k :: rest) 1 ((pfx ++ k :: rest) ++ [last])
        = .error (.keyErrorPath (pfx ++ [k])) := by
      rw [walkLoop_chain (k :: rest) 1 ((pfx ++ k :: rest) ++ [last]) hchain]
      rw [walkLoop_fail rest (1 + pfx.length) ((pfx ++ k :: rest) ++ [last]) hstep]
      congr 1
      congr 1
      rw [List.append_assoc]
      have : 1 + pfx.length = pfx.length + 1 := by omega
      rw [this, List.take_append 1]
      simp
    rw [hw]
  · intro m nonfinal last c e hall hchain hfin hkind
    have hne : (nonfinal ++ [last]).isEmpty = false := by simp
    simp only [magicMappingGetitem, tupleLookup, hne, List.dropLast_concat,
      hall, if_true, Bool.false_eq_true, if_false]
    have hw : walkLoop (.vmdict m) nonfinal 1 (nonfinal ++ [last]) = .ok c := by
      have := walkLoop_chain ([] : List PathItem) 1 (nonfinal ++ [last]) hchain
      rw [List.append_nil] at this
      rw [this]
      rfl
    rw [hw]
    have hlast : (nonfinal ++ [last]).getLastD (.pstr "") = last := by
      simp [List.getLastD_concat]
    rw [hlast]
    simp only [finalStep, hfin, hkind, if_true]

/-- Witness for C1 on the mapping from the test suite: the lookup
(0, "nonexistent") fails at the first (non-terminal) component with
the prefix (0,) as offending key, and ("d1", "nonexistent") fails at
the final component with the full path as offending key. -/
theorem c1_witness :
    magicMappingGetitem [("d1", PyVal.vmdict [("s1", PyVal.vstr "v1")])]
        (.ktuple [.pint 0, .pstr "nonexistent"]) =
      .error (.keyErrorPath [.pint 0])
    ∧ magicMappingGetitem [("d1", PyVal.vmdict [("s1", PyVal.vstr "v1")])]
        (.ktuple [.pstr "d1", .pstr "nonexistent"]) =
      .error (.keyErrorPath [.pstr "d1", .pstr "nonexistent"]) := by
  constructor
  · exact c1_path_error_payloads.1
      [("d1", PyVal.vmdict [("s1", PyVal.vstr "v1")])] [] (.pint 0) []
      (.pstr "nonexistent") (.vmdict [("d1", PyVal.vmdict [("s1", PyVal.vstr "v1")])])
      rfl rfl rfl
  · exact c1_path_error_payloads.2
      [("d1", PyVal.vmdict [("s1", PyVal.vstr "v1")])] [.pstr "d1"]
      (.pstr "nonexistent") (.vmdict [("s1", PyVal.vstr "v1")])
      (.keyErrorStr "nonexistent") rfl rfl rfl rfl

/-- C3 counterexample: in the MagicDict holding True at key b1, the
single-key lookup with the int tag returns the boolean instead of
failing with TypeMismatch, although int is a recognized tag different
from the type of the stored value (bool). -/
theorem c3_counterexample :
    magicMappingGetitem [("b1", PyVal.vbool true)]
        (.kslice (some "b1") .tint none) = .ok (.val (.vbool true))
    ∧ exceptIsError (magicMappingGetitem [("b1", PyVal.vbool true)]
        (.kslice (some "b1") .tint none)) = false := ⟨rfl, rfl⟩

/-- C3 as amended: for a key holding value v and a recognized tag t,
the single-key filtered access returns v exactly when v is an
instance of the generalised tag, and fails with the TypeMismatch
ValueError otherwise; being an instance means the tag names the type
of v, or v is a boolean and the tag is int (bool is a subclass of
int), or v is a text string and the tag is list (str is a registered
Sequence). -/
theorem c3_single_key_filter :
    ∀ (m : List (String × PyVal)) (k : String) (v : PyVal) (t : TypeTag)
      (g : GenType),
      assocGet m k = some v → generalise_type t = .ok g →
      (magicMappingGetitem m (.kslice (some k) t none) =
        if isinstanceGen v g then .ok (.val v)
        else .error (.valueErrorTypeMismatch t))
      ∧ (isinstanceGen v g = true ↔
          (tagOf v = some t ∨ (isBoolVal v = true ∧ t = .tint)
            ∨ (isStrVal v = true ∧ t = .tlist))) := by
  intro m k v t g h1 h2
  constructor
  · simp only [magicMappingGetitem, magicMappingGetitemNT, mappingGetStr, h1, h2,
      Option.isSome_none, Bool.false_eq_true, if_false]
  · cases t
    case tother name => simp [generalise_type] at h2
    all_goals simp only [generalise_type, Except.ok.injEq] at h2
    all_goals subst h2
    all_goals cases v <;>
      simp [isinstanceGen, tagOf, isBoolVal, isIntVal, isFloatVal, isStrVal,
        isMappingVal, isSequenceVal]

/-- Witness for C3 as amended: the string value at s1 under the bool
tag takes the mismatch branch. -/
theorem c3_witness :
    assocGet [("s1", PyVal.vstr "hello")] "s1" = some (.vstr "hello")
    ∧ magicMappingGetitem [("s1", PyVal.vstr "hello")]
        (.kslice (some "s1") .tbool none) =
      (if isinstanceGen (.vstr "hello") .gbool then .ok (.val (.vstr "hello"))
        else .error (.valueErrorTypeMismatch .tbool)) :=
  ⟨rfl, (c3_single_key_filter [("s1", PyVal.vstr "hello")] "s1" (.vstr "hello")
    .tbool .gbool rfl rfl).1⟩

/-- C4 counterexample: requesting a view with an unrecognized tag does
not fail at lookup time; it returns a view over the mapping. -/
theorem c4_counterexample :
    magicMappingGetitem [("s1", PyVal.vstr "hello")]
        (.kslice none (.tother "invalid-type-filter") none) =
      .ok (.view (.tother "invalid-type-filter"))
    ∧ exceptIsError (magicMappingGetitem [("s1", PyVal.vstr "hello")]
        (.kslice none (.tother "invalid-type-filter") none)) = false :=
  ⟨rfl, rfl⟩

/-- C4 as amended: the view-producing lookup with an unrecognized tag
returns a Type-Filtered View without error; the invalid-type-filter
ValueError from generalise_type instead surfaces on first use of the
view — reading any present key, iterating, taking the length, writing
any value, or deleting any present key. -/
theorem c4_lazy_invalid_filter :
    ∀ (m : List (String × PyVal)) (name : String) (k : String) (v : PyVal),
      magicMappingGetitem m (.kslice none (.tother name) none) =
        .ok (.view (.tother name))
      ∧ (assocGet m k = some v →
          tfvmGetitem m (.tother name) k = .error .valueErrorBadTypeFilter)
      ∧ tfvmIterKeys m (.tother name) = .error .valueErrorBadTypeFilter
      ∧ tfvmLen m (.tother name) = .error .valueErrorBadTypeFilter
      ∧ tfvmSetitem m (.tother name) k v = .error .valueErrorBadTypeFilter
      ∧ (assocGet m k = some v →
          tfvmDelitem m (.tother name) k = .error .valueErrorBadTypeFilter) := by
  intro m name k v
  refine ⟨rfl, ?_, rfl, rfl, rfl, ?_⟩
  · intro h
    simp [tfvmGetitem, h, generalise_type]
  · intro h
    simp [tfvmDelitem, tfvmGetitem, h, generalise_type]

/-- Witness for C4 as amended at a present key. -/
theorem c4_witness :
    assocGet [("s1", PyVal.vstr "hello")] "s1" = some (.vstr "hello")
    ∧ magicMappingGetitem [("s1", PyVal.vstr "hello")]
        (.kslice none (.tother "nope") none) = .ok (.view (.tother "nope"))
    ∧ tfvmGetitem [("s1", PyVal.vstr "hello")] (.tother "nope") "s1" =
        .error .valueErrorBadTypeFilter :=
  ⟨rfl, (c4_lazy_invalid_filter [("s1", PyVal.vstr "hello")] "nope" "s1"
      (.vstr "hello")).1,
    (c4_lazy_invalid_filter [("s1", PyVal.vstr "hello")] "nope" "s1"
      (.vstr "hello")).2.1 rfl⟩

/-- C5: through a Type-Filtered View over backing entries m, a key
whose stored value does not match the requested type reads and
deletes as KeyError (a failed delete returns no new contents: the
backing mapping is untouched), while a matching key deletes to
exactly the backing contents without that entry. -/
theorem c5_view_mismatch_is_absence :
    ∀ (m : List (String × PyVal)) (t : TypeTag) (g : GenType) (k : String)
      (v : PyVal),
      generalise_type t = .ok g → assocGet m k = some v →
      (isinstanceGen v g = false →
        tfvmGetitem m t k = .error (.keyErrorStr k)
        ∧ tfvmDelitem m t k = .error (.keyErrorStr k))
      ∧ (isinstanceGen v g = true →
        tfvmGetitem m t k = .ok v
        ∧ tfvmDelitem m t k = .ok (delEntry m k)
        ∧ assocGet (delEntry m k) k = none) := by
  intro m t g k v hg ha
  constructor
  · intro hmiss
    constructor
    · simp [tfvmGetitem, ha, hg, hmiss]
    · simp [tfvmDelitem, tfvmGetitem, ha, hg, hmiss]
  · intro hmatch
    refine ⟨?_, ?_, assocGet_delEntry_self m k⟩
    · simp [tfvmGetitem, ha, hg, hmatch]
    · simp [tfvmDelitem, tfvmGetitem, ha, hg, hmatch]

/-- Witness for C5 on the boolean-filtered view from the test
scenario: s1 holds a string, so reading and deleting through the bool
view fail with KeyError, and deleting the matching key b1 removes it. -/
theorem c5_witness :
    tfvmGetitem [("b1", PyVal.vbool true), ("s1", PyVal.vstr "x")] .tbool "s1" =
      .error (.keyErrorStr "s1")
    ∧ tfvmDelitem [("b1", PyVal.vbool true), ("s1", PyVal.vstr "x")] .tbool "s1" =
      .error (.keyErrorStr "s1")
    ∧ tfvmDelitem [("b1", PyVal.vbool true), ("s1", PyVal.vstr "x")] .tbool "b1" =
      .ok (delEntry [("b1", PyVal.vbool true), ("s1", PyVal.vstr "x")] "b1") := by
  have h1 := (c5_view_mismatch_is_absence
    [("b1", PyVal.vbool true), ("s1", PyVal.vstr "x")] .tbool .gbool "s1"
    (.vstr "x") rfl rfl).1 rfl
  have h2 := (c5_view_mismatch_is_absence
    [("b1", PyVal.vbool true), ("s1", PyVal.vstr "x")] .tbool .gbool "b1"
    (.vbool true) rfl rfl).2 rfl
  exact ⟨h1.1, h1.2, h2.2.1⟩

/-- C10: booleans satisfy the int type filter (bool is a subclass of
int): the single-key access with the int tag returns the boolean and
the int-filtered view lists its key; conversely an integer value
fails the bool tag and is absent from the bool-filtered view. -/
theorem c10_bool_under_int_filter :
    ∀ (m : List (String × PyVal)) (k : String) (b : Bool) (n : Int)
      (l l2 : List String),
      (assocGet m k = some (.vbool b) →
        magicMappingGetitem m (.kslice (some k) .tint none) =
          .ok (.val (.vbool b))
        ∧ (tfvmIterKeys m .tint = .ok l → k ∈ l))
      ∧ ((m.map Prod.fst).Nodup → assocGet m k = some (.vint n) →
        magicMappingGetitem m (.kslice (some k) .tbool none) =
          .error (.valueErrorTypeMismatch .tbool)
        ∧ (tfvmIterKeys m .tbool = .ok l2 → k ∉ l2)) := by
  intro m k b n l l2
  constructor
  · intro ha
    constructor
    · simp [magicMappingGetitem, magicMappingGetitemNT, mappingGetStr, ha,
        generalise_type, isinstanceGen, isIntVal, isBoolVal]
    · intro hl
      simp only [tfvmIterKeys, generalise_type, Except.ok.injEq] at hl
      subst hl
      have hmem : (k, PyVal.vbool b) ∈ m := assocGet_mem ha
      refine List.mem_map.mpr ⟨(k, .vbool b), ?_, rfl⟩
      exact List.mem_filter.mpr ⟨hmem, by simp [isinstanceGen, isIntVal, isBoolVal]⟩
  · intro hnd ha
    constructor
    · simp [magicMappingGetitem, magicMappingGetitemNT, mappingGetStr, ha,
        generalise_type, isinstanceGen, isBoolVal]
    · intro hl hk
      simp only [tfvmIterKeys, generalise_type, Except.ok.injEq] at hl
      subst hl
      obtain ⟨q, hqf, hq1⟩ := List.mem_map.mp hk
      obtain ⟨hqm, hqp⟩ := List.mem_filter.mp hqf
      have := assocGet_nodup_unique hnd ha hqm hq1
      rw [this] at hqp
      simp [isinstanceGen, isBoolVal] at hqp

/-- Witness for C10 on a mapping holding a boolean at b1 and an
integer at i1. -/
theorem c10_witness :
    (magicMappingGetitem [("b1", PyVal.vbool true), ("i1", PyVal.vint 7)]
        (.kslice (some "b1") .tint none) = .ok (.val (.vbool true))
      ∧ "b1" ∈ ["b1", "i1"])
    ∧ (magicMappingGetitem [("b1", PyVal.vbool true), ("i1", PyVal.vint 7)]
        (.kslice (some "i1") .tbool none) =
          .error (.valueErrorTypeMismatch .tbool)
      ∧ "i1" ∉ ["b1"]) := by
  have h1 := (c10_bool_under_int_filter
    [("b1", PyVal.vbool true), ("i1", PyVal.vint 7)] "b1" true 7 ["b1", "i1"]
    ["b1"]).1 rfl
  have h2 := (c10_bool_under_int_filter
    [("b1", PyVal.vbool true), ("i1", PyVal.vint 7)] "i1" true 7 ["b1"] ["b1"]).2
    (by decide) rfl
  exact ⟨⟨h1.1, h1.2 rfl⟩, ⟨h2.1, h2.2 rfl⟩⟩

/-- C6: a Type-Filtered View holds no snapshot.  Whatever sequence of
MagicDict mutations is applied to the backing mapping after the view
exists, iterating the view afterwards yields exactly the keys of the
current contents whose values match the requested type; in
particular a newly set entry with a matching value appears, a deleted
entry disappears, and an entry overwritten with a non-matching value
disappears. -/
theorem c6_view_is_live :
    (∀ (m : List (String × PyVal)) (muts : List DictMut) (t : TypeTag)
       (g : GenType),
      generalise_type t = .ok g →
      tfvmIterKeys (applyMuts m muts) t =
        .ok (((applyMuts m muts).filter
          (fun kv => isinstanceGen kv.2 g)).map (fun kv => kv.1)))
    ∧ (∀ (m : List (String × PyVal)) (k : String) (v w : PyVal) (t : TypeTag)
         (g : GenType) (m2 : List (String × PyVal)) (l : List String),
      generalise_type t = .ok g → enchant_value v = .ok w →
      isinstanceGen w g = true → magicDictSetitem m (.kstr k) v = .ok m2 →
      tfvmIterKeys m2 t = .ok l → k ∈ l)
    ∧ (∀ (m : List (String × PyVal)) (k : String) (t : TypeTag) (g : GenType)
         (m2 : List (String × PyVal)) (l : List String),
      generalise_type t = .ok g → magicDictDelitem m (.kstr k) = .ok m2 →
      tfvmIterKeys m2 t = .ok l → k ∉ l)
    ∧ (∀ (m : List (String × PyVal)) (k : String) (v w : PyVal) (t : TypeTag)
         (g : GenType) (m2 : List (String × PyVal)) (l : List String),
      generalise_type t = .ok g → enchant_value v = .ok w →
      isinstanceGen w g = false → magicDictSetitem m (.kstr k) v = .ok m2 →
      tfvmIterKeys m2 t = .ok l → k ∉ l) := by
  refine ⟨?_, ?_, ?_, ?_⟩
  · intro m muts t g hg
    simp [tfvmIterKeys, hg]
  · intro m k v w t g m2 l hg he hi hset hl
    simp only [magicDictSetitem, he] at hset
    injection hset with hm2
    subst hm2
    simp only [tfvmIterKeys, hg, Except.ok.injEq] at hl
    subst hl
    refine List.mem_map.mpr ⟨(k, w), ?_, rfl⟩
    exact List.mem_filter.mpr ⟨mem_setEntry_self m k w, hi⟩
  · intro m k t g m2 l hg hdel hl hk
    simp only [magicDictDelitem] at hdel
    by_cases hh : hasKey m k
    · simp only [hh, if_true] at hdel
      injection hdel with hm2
      subst hm2
      simp only [tfvmIterKeys, hg, Except.ok.injEq] at hl
      subst hl
      obtain ⟨q, hqf, hq1⟩ := List.mem_map.mp hk
      obtain ⟨hqm, _⟩ := List.mem_filter.mp hqf
      exact (mem_delEntry hqm).2 hq1
    · simp [hh] at hdel
  · intro m k v w t g m2 l hg he hi hset hl hk
    simp only [magicDictSetitem, he] at hset
    injection hset with hm2
    subst hm2
    simp only [tfvmIterKeys, hg, Except.ok.injEq] at hl
    subst hl
    obtain ⟨q, hqf, hq1⟩ := List.mem_map.mp hk
    obtain ⟨hqm, hqp⟩ := List.mem_filter.mp hqf
    have := setEntry_key_val hqm hq1
    rw [this] at hqp
    rw [hqp] at hi
    cases hi

/-- Witness for C6: starting from a mapping with one string entry,
setting s3 to a string then deleting it, the string-filtered view
reports exactly the live keys at each state. -/
theorem c6_witness :
    tfvmIterKeys (applyMuts [("s1", PyVal.vstr "hello")]
        [.set (.kstr "s3") (.vstr "hi")]) .tstr =
      .ok ["s1", "s3"]
    ∧ "s3" ∈ ["s1", "s3"]
    ∧ "s3" ∉ ["s1"] := by
  have h1 := c6_view_is_live.1 [("s1", PyVal.vstr "hello")]
    [.set (.kstr "s3") (.vstr "hi")] .tstr .gstringTypes rfl
  have h2 := c6_view_is_live.2.1 [("s1", PyVal.vstr "hello")] "s3"
    (.vstr "hi") (.vstr "hi") .tstr .gstringTypes
    [("s1", PyVal.vstr "hello"), ("s3", PyVal.vstr "hi")] ["s1", "s3"]
    rfl rfl rfl rfl rfl
  have h3 := c6_view_is_live.2.2.1 [("s1", PyVal.vstr "hello"), ("s3", PyVal.vstr "hi")]
    "s3" .tstr .gstringTypes [("s1", PyVal.vstr "hello")] ["s1"] rfl rfl rfl
  exact ⟨h1, h2, h3⟩

theorem entriesEnchanted_iff (m : List (String × PyVal)) :
    entriesEnchanted m = true ↔ ∀ q ∈ m, isEnchanted q.2 = true := by
  induction m with
  | nil => simp [entriesEnchanted]
  | cons kv rest ih =>
    obtain ⟨s, v⟩ := kv
    simp [entriesEnchanted, ih]

theorem itemsEnchanted_iff (items : List PyVal) :
    itemsEnchanted items = true ↔ ∀ v ∈ items, isEnchanted v = true := by
  induction items with
  | nil => simp [itemsEnchanted]
  | cons v rest ih => simp [itemsEnchanted, ih]

theorem enchant_isEnchanted :
    ∀ v w, enchant_value v = .ok w → isEnchanted w = true := by
  intro v
  refine enchant_value.induct
    (fun v => ∀ w, enchant_value v = .ok w → isEnchanted w = true)
    (fun items => ∀ ws, enchantItems items = .ok ws → itemsEnchanted ws = true)
    (fun es => ∀ ws, enchantMagicEntries es = .ok ws → entriesEnchanted ws = true)
    (fun es => ∀ ws, enchantNativeEntries es = .ok ws → entriesEnchanted ws = true)
    ?_ ?_ ?_ ?_ ?_ ?_ ?_ ?_ ?_ ?_ ?_ ?_ ?_ ?_ ?_ ?_ ?_ ?_ ?_ ?_ ?_ ?_ ?_ ?_ ?_ ?_ ?_ v
  · intro s w h
    injection h with h
    subst h
    rfl
  · intro n w h
    injection h with h
    subst h
    rfl
  · intro tok w h
    injection h with h
    subst h
    rfl
  · intro b w h
    injection h with h
    subst h
    rfl
  · intro w h
    injection h with h
    subst h
    rfl
  · intro es es2 hes ih w h
    simp only [enchant_value, hes] at h
    injection h with h
    subst h
    exact ih es2 hes
  · intro es e hes ih w h
    simp only [enchant_value, hes] at h
    cases h
  · intro es es2 hes ih w h
    simp only [enchant_value, hes] at h
    injection h with h
    subst h
    exact ih es2 hes
  · intro es e hes ih w h
    simp only [enchant_value, hes] at h
    cases h
  · intro items items2 hits ih w h
    simp only [enchant_value, hits] at h
    injection h with h
    subst h
    exact ih items2 hits
  · intro items e hits ih w h
    simp only [enchant_value, hits] at h
    cases h
  · intro items items2 hits ih w h
    simp only [enchant_value, hits] at h
    injection h with h
    subst h
    exact ih items2 hits
  · intro items e hits ih w h
    simp only [enchant_value, hits] at h
    cases h
  · intro name w h
    cases h
  · intro ws h
    injection h with h
    subst h
    rfl
  · intro v2 rest s w hv es2 hrest ihv ihrest ws h
    simp only [enchantNativeEntries, hv, hrest] at h
    injection h with h
    subst h
    simp only [entriesEnchanted]
    rw [ihv w hv, ihrest es2 hrest]
    rfl
  · intro v2 rest s w hv e hrest ihv ihrest ws h
    simp only [enchantNativeEntries, hv, hrest] at h
    cases h
  · intro v2 rest s e hv ihv ws h
    simp only [enchantNativeEntries, hv] at h
    cases h
  · intro v2 rest n ws h
    cases h
  · intro ws h
    injection h with h
    subst h
    rfl
  · intro v2 rest w hv items2 hrest ihv ihrest ws h
    simp only [enchantItems, hv, hrest] at h
    injection h with h
    subst h
    simp only [itemsEnchanted]
    rw [ihv w hv, ihrest items2 hrest]
    rfl
  · intro v2 rest w hv e hrest ihv ihrest ws h
    simp only [enchantItems, hv, hrest] at h
    cases h
  · intro v2 rest e hv ihv ws h
    simp only [enchantItems, hv] at h
    cases h
  · intro ws h
    injection h with h
    subst h
    rfl
  · intro s v2 rest w hv es2 hrest ihv ihrest ws h
    simp only [enchantMagicEntries, hv, hrest] at h
    injection h with h
    subst h
    simp only [entriesEnchanted]
    rw [ihv w hv, ihrest es2 hrest]
    rfl
  · intro s v2 rest w hv e hrest ihv ihrest ws h
    simp only [enchantMagicEntries, hv, hrest] at h
    cases h
  · intro s v2 rest e hv ihv ws h
    simp only [enchantMagicEntries, hv] at h
    cases h

theorem mem_setEntry {m : List (String × PyVal)} {k : String} {v : PyVal}
    {q : String × PyVal} (h : q ∈ setEntry m k v) : q ∈ m ∨ q = (k, v) := by
  unfold setEntry at h
  by_cases hh : hasKey m k
  · simp only [hh, if_true] at h
    obtain ⟨kv, hmem, himg⟩ := List.mem_map.mp h
    by_cases hc : kv.1 == k
    · rw [if_pos hc] at himg
      right
      exact himg.symm
    · rw [if_neg hc] at himg
      left
      rwa [himg] at hmem
  · simp only [hh, if_false] at h
    rcases List.mem_append.mp h with hm | hs
    · left; exact hm
    · right; simpa using hs

theorem mem_pyInsertAt {items : List PyVal} {i : Int} {v w : PyVal}
    (h : w ∈ pyInsertAt items i v) : w ∈ items ∨ w = v := by
  unfold pyInsertAt at h
  rcases List.mem_append.mp h with ht | hc
  · left
    exact List.take_subset _ _ ht
  · rcases List.mem_cons.mp hc with rfl | hd
    · right; rfl
    · left
      exact List.drop_subset _ _ hd

/-- C7 counterexample: MagicList.extend on an empty list with the
values [1, object()] fails with the ValueError for disallowed values
but leaves the already-enchanted prefix [1] appended, so the failing
mutation does not leave the container unchanged. -/
theorem c7_counterexample :
    (magicListExtend [] [.vint 1, .vother "object"]).1 = [PyVal.vint 1]
    ∧ (magicListExtend [] [.vint 1, .vother "object"]).2 =
        some (.valueErrorNotAllowed "object")
    ∧ (magicListExtend [] [.vint 1, .vother "object"]).1 ≠ ([] : List PyVal) :=
  ⟨rfl, rfl, fun h => nomatch h⟩

/-- C7 as amended: every enchanted value satisfies the wrapping
invariant; scalars are enchanted to themselves, native mappings to
MagicDicts, native sequences to MagicLists, and disallowed values
fail with ValueNotAllowed; dict setitem, list setitem and list insert
preserve the invariant (failing before any write), and extend
preserves the invariant of its final contents even though a failure
can leave the successfully enchanted prefix appended. -/
theorem c7_wrapping_invariant :
    (∀ v w, enchant_value v = .ok w → isEnchanted w = true)
    ∧ (∀ v, isAtomic v = true → enchant_value v = .ok v)
    ∧ (∀ (es : List (PyKey × PyVal)) (w : PyVal),
        enchant_value (.vdict es) = .ok w →
        ∃ es2, w = .vmdict es2)
    ∧ (∀ (items : List PyVal) (w : PyVal),
        enchant_value (.vlist items) = .ok w →
        ∃ items2, w = .vmlist items2)
    ∧ (∀ name, enchant_value (.vother name) =
        .error (.valueErrorNotAllowed name))
    ∧ (∀ (m : List (String × PyVal)) (key : PyKey) (v : PyVal)
         (m2 : List (String × PyVal)),
        entriesEnchanted m = true → magicDictSetitem m key v = .ok m2 →
        entriesEnchanted m2 = true)
    ∧ (∀ (items : List PyVal) (i : Int) (v : PyVal) (items2 : List PyVal),
        itemsEnchanted items = true → magicListSetitem items i v = .ok items2 →
        itemsEnchanted items2 = true)
    ∧ (∀ (items : List PyVal) (i : Int) (v : PyVal) (items2 : List PyVal),
        itemsEnchanted items = true → magicListInsert items i v = .ok items2 →
        itemsEnchanted items2 = true)
    ∧ (∀ (items vs : List PyVal),
        itemsEnchanted items = true →
        itemsEnchanted (magicListExtend items vs).1 = true) := by
  refine ⟨enchant_isEnchanted, ?_, ?_, ?_, ?_, ?_, ?_, ?_, ?_⟩
  · intro v h
    cases v <;> simp [isAtomic] at h <;> rfl
  · intro es w h
    simp only [enchant_value] at h
    cases hes : enchantNativeEntries es with
    | error e => rw [hes] at h; cases h
    | ok es2 =>
      rw [hes] at h
      injection h with h
      exact ⟨es2, h.symm⟩
  · intro items w h
    simp only [enchant_value] at h
    cases hits : enchantItems items with
    | error e => rw [hits] at h; cases h
    | ok items2 =>
      rw [hits] at h
      injection h with h
      exact ⟨items2, h.symm⟩
  · intro name
    rfl
  · intro m key v m2 hm hset
    cases key with
    | kint n => cases hset
    | kstr s =>
      simp only [magicDictSetitem] at hset
      cases hv : enchant_value v with
      | error e => rw [hv] at hset; cases hset
      | ok w =>
        rw [hv] at hset
        injection hset with hm2
        subst hm2
        rw [entriesEnchanted_iff]
        intro q hq
        rcases mem_setEntry hq with hqm | hqe
        · exact (entriesEnchanted_iff m).mp hm q hqm
        · rw [hqe]
          exact enchant_isEnchanted v w hv
  · intro items i v items2 hits hset
    simp only [magicListSetitem] at hset
    split at hset
    next e hv => cases hset
    next w hv =>
      split at hset
      · split at hset
        · injection hset with hit2
          subst hit2
          rw [itemsEnchanted_iff]
          intro u hu
          rcases List.mem_or_eq_of_mem_set hu with hum | hue
          · exact (itemsEnchanted_iff items).mp hits u hum
          · rw [hue]
            exact enchant_isEnchanted v w hv
        · cases hset
      · split at hset
        · injection hset with hit2
          subst hit2
          rw [itemsEnchanted_iff]
          intro u hu
          rcases List.mem_or_eq_of_mem_set hu with hum | hue
          · exact (itemsEnchanted_iff items).mp hits u hum
          · rw [hue]
            exact enchant_isEnchanted v w hv
        · cases hset
  · intro items i v items2 hits hins
    simp only [magicListInsert] at hins
    cases hv : enchant_value v with
    | error e => rw [hv] at hins; cases hins
    | ok w =>
      rw [hv] at hins
      injection hins with hit2
      subst hit2
      rw [itemsEnchanted_iff]
      intro u hu
      rcases mem_pyInsertAt hu with hum | hue
      · exact (itemsEnchanted_iff items).mp hits u hum
      · rw [hue]
        exact enchant_isEnchanted v w hv
  · intro items vs
    induction vs generalizing items with
    | nil =>
      intro h
      exact h
    | cons v rest ih =>
      intro h
      simp only [magicListExtend]
      cases hv : enchant_value v with
      | error e => exact h
      | ok w =>
        apply ih
        rw [itemsEnchanted_iff]
        intro u hu
        rcases List.mem_append.mp hu with hum | hue
        · exact (itemsEnchanted_iff items).mp h u hum
        · rcases List.mem_singleton.mp hue with rfl
          exact enchant_isEnchanted v u hv

/-- Witness for C7 as amended: wrapping the nested native structure
from the test suite yields an enchanted MagicDict, the scalar 1
passes through unchanged, object() is rejected, and a setitem of a
native dict into an enchanted mapping stays enchanted. -/
theorem c7_witness :
    enchant_value (.vdict [(.kstr "d1", .vdict [(.kstr "s1", .vstr "v1")])]) =
      .ok (.vmdict [("d1", .vmdict [("s1", .vstr "v1")])])
    ∧ isEnchanted (.vmdict [("d1", .vmdict [("s1", .vstr "v1")])]) = true
    ∧ enchant_value (.vint 1) = .ok (.vint 1)
    ∧ enchant_value (.vother "object") = .error (.valueErrorNotAllowed "object")
    ∧ entriesEnchanted (setEntry [("a", PyVal.vint 1)] "b"
        (.vmdict [("s1", .vstr "v1")])) = true := by
  refine ⟨rfl, ?_, c7_wrapping_invariant.2.1 (.vint 1) rfl,
    c7_wrapping_invariant.2.2.2.2.1 "object", ?_⟩
  · exact c7_wrapping_invariant.1
      (.vdict [(.kstr "d1", .vdict [(.kstr "s1", .vstr "v1")])])
      (.vmdict [("d1", .vmdict [("s1", .vstr "v1")])]) rfl
  · exact c7_wrapping_invariant.2.2.2.2.2.1 [("a", PyVal.vint 1)] (.kstr "b")
      (.vdict [(.kstr "s1", .vstr "v1")]) _ rfl rfl

theorem charDigit_digitChar {d : Nat} (h : d < 10) :
    charDigit (digitChar d) = some d := by
  interval_cases d <;> decide

theorem digitChar_ne {d : Nat} (h : d < 10) (c : Char)
    (hc : charDigit c = none) : digitChar d ≠ c := by
  intro he
  rw [← he, charDigit_digitChar h] at hc
  cases hc

theorem mapM_charDigit_digitChar :
    ∀ (ds : List Nat), (∀ d ∈ ds, d < 10) →
      (ds.map digitChar).mapM charDigit = some ds := by
  intro ds
  induction ds with
  | nil => intro _; rfl
  | cons d rest ih =>
    intro h
    simp only [List.map_cons, List.mapM_cons]
    rw [charDigit_digitChar (h d (by simp))]
    rw [ih (fun x hx => h x (by simp [hx]))]
    rfl

theorem natToChars_digits (n : Nat) :
    ∀ c ∈ natToChars n, ∃ d, d < 10 ∧ c = digitChar d := by
  intro c hc
  unfold natToChars at hc
  by_cases h : n = 0
  · simp only [h, if_true] at hc
    have hc0 : c = '0' := by simpa using hc
    exact ⟨0, by norm_num, hc0⟩
  · simp only [h, if_false] at hc
    obtain ⟨d, hd, hdc⟩ := List.mem_map.mp hc
    refine ⟨d, ?_, hdc.symm⟩
    exact Nat.digits_lt_base (by norm_num) (List.mem_reverse.mp hd)

theorem parseNatChars_natToChars (n : Nat) :
    parseNatChars (natToChars n) = some n := by
  unfold natToChars parseNatChars
  by_cases h : n = 0
  · subst h
    rfl
  · simp only [h, if_false]
    have hne : (Nat.digits 10 n).reverse.map digitChar ≠ [] := by
      simp [Nat.digits_ne_nil_iff_ne_zero.mpr h]
    rw [if_neg (by simpa [List.isEmpty_iff] using hne)]
    rw [mapM_charDigit_digitChar _ (fun d hd =>
      Nat.digits_lt_base (by norm_num) (List.mem_reverse.mp hd))]
    simp [Nat.ofDigits_digits]

theorem pyParseInt_mk_cons (c : Char) (cs : List Char) :
    pyParseInt (String.mk (c :: cs)) =
      (if c = '-' then (parseNatChars cs).map (fun m => -(Int.ofNat m))
        else if c = '+' then (parseNatChars cs).map Int.ofNat
        else (parseNatChars (c :: cs)).map Int.ofNat) := rfl

theorem pyParseInt_pyIntToString (n : Int) :
    pyParseInt (pyIntToString n) = some n := by
  by_cases h : n < 0
  · simp only [pyIntToString, h, if_true]
    rw [pyParseInt_mk_cons, if_pos rfl, parseNatChars_natToChars]
    simp only [Option.map_some', Int.ofNat_eq_coe]
    congr 1
    omega
  · simp only [pyIntToString, h, if_false]
    cases hl : natToChars n.toNat with
    | nil =>
      exfalso
      unfold natToChars at hl
      by_cases h0 : n.toNat = 0
      · simp [h0] at hl
      · simp only [h0, if_false] at hl
        have hdig : Nat.digits 10 n.toNat ≠ [] :=
          Nat.digits_ne_nil_iff_ne_zero.mpr h0
        simp at hl
        exact hdig hl
    | cons c cs =>
      have hcd : ∃ d, d < 10 ∧ c = digitChar d := by
        apply natToChars_digits n.toNat
        rw [hl]
        simp
      obtain ⟨d, hd, rfl⟩ := hcd
      rw [pyParseInt_mk_cons]
      rw [if_neg (digitChar_ne hd '-' rfl), if_neg (digitChar_ne hd '+' rfl)]
      rw [← hl, parseNatChars_natToChars]
      simp only [Option.map_some', Int.ofNat_eq_coe]
      congr 1
      omega

theorem pyIntToString_no_dot (n : Int) :
    ∀ c ∈ (pyIntToString n).data, c ≠ '.' := by
  intro c hc
  unfold pyIntToString at hc
  by_cases h : n < 0
  · simp only [h, if_true] at hc
    rcases List.mem_cons.mp hc with rfl | hm
    · intro he
      cases he
    · obtain ⟨d, hd, rfl⟩ := natToChars_digits _ _ hm
      exact digitChar_ne hd '.' rfl
  · simp only [h, if_false] at hc
    obtain ⟨d, hd, rfl⟩ := natToChars_digits _ _ hc
    exact digitChar_ne hd '.' rfl

theorem splitChars_ne_nil (sep : Char) (l : List Char) :
    splitChars sep l ≠ [] := by
  cases l with
  | nil => simp [splitChars]
  | cons c rest =>
    simp only [splitChars]
    cases h : splitChars sep rest with
    | nil => simp
    | cons p ps =>
      by_cases hc : c = sep <;> simp [hc]

theorem splitChars_no_sep {sep : Char} {l : List Char} (h : sep ∉ l) :
    splitChars sep l = [l] := by
  induction l with
  | nil => rfl
  | cons c rest ih =>
    have hrest : sep ∉ rest := fun hx => h (List.mem_cons_of_mem _ hx)
    have hc : c ≠ sep := fun hx => h (by simp [hx])
    simp only [splitChars, ih hrest]
    simp [hc]

theorem splitChars_append_sep {sep : Char} {l : List Char} (r : List Char)
    (h : sep ∉ l) :
    splitChars sep (l ++ sep :: r) = l :: splitChars sep r := by
  induction l with
  | nil =>
    simp only [List.nil_append, splitChars]
    cases hs : splitChars sep r with
    | nil => exact absurd hs (splitChars_ne_nil sep r)
    | cons p ps => simp
  | cons c rest ih =>
    have hrest : sep ∉ rest := fun hx => h (List.mem_cons_of_mem _ hx)
    have hc : c ≠ sep := fun hx => h (by simp [hx])
    simp only [List.cons_append, splitChars, List.append_eq]
    rw [ih hrest]
    simp [hc]

theorem splitChars_joinChars {sep : Char} :
    ∀ (parts : List (List Char)), parts ≠ [] →
      (∀ p ∈ parts, sep ∉ p) →
      splitChars sep (joinChars sep parts) = parts := by
  intro parts
  induction parts with
  | nil => intro h; exact absurd rfl h
  | cons p rest ih =>
    intro _ hall
    cases rest with
    | nil =>
      simp only [joinChars]
      exact splitChars_no_sep (hall p (by simp))
    | cons q rest2 =>
      simp only [joinChars]
      rw [splitChars_append_sep _ (hall p (by simp))]
      rw [ih (by simp) (fun x hx => hall x (List.mem_cons_of_mem _ hx))]

theorem coerceComp_compStr {c : PyKey} (h : goodComp c = true) :
    coerceComp (compStr c) = c := by
  cases c with
  | kint n =>
    simp only [compStr, coerceComp, pyParseInt_pyIntToString]
  | kstr s =>
    simp only [goodComp, Bool.and_eq_true, Option.isNone_iff_eq_none] at h
    simp only [compStr, coerceComp, h.2]

theorem compStr_no_dot {c : PyKey} (h : goodComp c = true) :
    ∀ ch ∈ (compStr c).data, ch ≠ '.' := by
  cases c with
  | kint n => exact fun ch hch => pyIntToString_no_dot n ch hch
  | kstr s =>
    intro ch hch he
    simp only [goodComp, Bool.and_eq_true, List.all_eq_true] at h
    have := h.1 ch hch
    rw [he] at this
    simp at this

theorem pySplitDots_pyJoinDots (parts : List String) (hne : parts ≠ [])
    (hnd : ∀ p ∈ parts, ∀ ch ∈ p.data, ch ≠ '.') :
    pySplitDots (pyJoinDots parts) = parts := by
  unfold pySplitDots pyJoinDots
  have hmk : (String.mk (joinChars '.' (parts.map String.data))).data =
      joinChars '.' (parts.map String.data) := rfl
  rw [hmk]
  rw [splitChars_joinChars (parts.map String.data) (by simpa using hne) ?_]
  · rw [List.map_map]
    simp only [Function.comp_def]
    have hid : ∀ s : String, String.mk s.data = s := fun s => rfl
    simp only [hid]
    exact List.map_id parts
  · intro p hp hdot
    obtain ⟨s, hs, rfl⟩ := List.mem_map.mp hp
    exact hnd s hs '.' hdot rfl

/-- C8 counterexample: for the native dict with the string key "1"
holding "x", the segmented path ("1",) resolves to "x" by successive
indexing, but the dotted rendering "1" (which is ".".join of that
path) coerces the component to the integer 1 and fails with KeyError,
so the two forms disagree. -/
theorem c8_counterexample :
    lookup_path_seq (.vdict [(.kstr "1", .vstr "x")]) [.kstr "1"] none =
      .ok (.vstr "x")
    ∧ dottedOf [.kstr "1"] = "1"
    ∧ lookup_path_str (.vdict [(.kstr "1", .vstr "x")]) "1" none =
      .error (.keyErrorKey (.kint 1))
    ∧ lookup_path_seq (.vdict [(.kstr "1", .vstr "x")]) [.kstr "1"] none ≠
      lookup_path_str (.vdict [(.kstr "1", .vstr "x")]) "1" none := by
  refine ⟨rfl, rfl, rfl, ?_⟩
  intro h
  rw [show lookup_path_seq (.vdict [(.kstr "1", .vstr "x")]) [.kstr "1"] none =
    .ok (.vstr "x") from rfl] at h
  rw [show lookup_path_str (.vdict [(.kstr "1", .vstr "x")]) "1" none =
    .error (.keyErrorKey (.kint 1)) from rfl] at h
  cases h

/-- C8 as amended: the segmented and dotted forms of a path agree for
every nonempty path whose components are integers or text strings
that neither contain the separator dot nor parse as integers; with a
numeric-string or dot-containing key the two forms can differ even on
paths reachable by successive indexing. -/
theorem c8_dotted_segmented_agree :
    ∀ (obj : PyVal) (comps : List PyKey) (dflt : Option PyVal),
      comps ≠ [] → (∀ c ∈ comps, goodComp c = true) →
      lookup_path_str obj (dottedOf comps) dflt =
        lookup_path_seq obj comps dflt := by
  intro obj comps dflt hne hgood
  unfold lookup_path_str dottedOf
  rw [pySplitDots_pyJoinDots (comps.map compStr) (by simpa using hne) ?_]
  · rw [List.map_map]
    simp only [Function.comp_def]
    congr 1
    calc List.map (fun c => coerceComp (compStr c)) comps
        = List.map id comps := by
          apply List.map_congr_left
          intro c hc
          exact coerceComp_compStr (hgood c hc)
      _ = comps := List.map_id comps
  · intro p hp
    obtain ⟨c, hc, rfl⟩ := List.mem_map.mp hp
    exact compStr_no_dot (hgood c hc)

/-- Witness for C8 as amended on the path ("a", "b") into a nested
native dict. -/
theorem c8_witness :
    ([PyKey.kstr "a", PyKey.kstr "b"] ≠ ([] : List PyKey))
    ∧ (∀ c ∈ [PyKey.kstr "a", PyKey.kstr "b"], goodComp c = true)
    ∧ lookup_path_str
        (.vdict [(.kstr "a", .vdict [(.kstr "b", .vstr "y")])])
        (dottedOf [.kstr "a", .kstr "b"]) none =
      lookup_path_seq (.vdict [(.kstr "a", .vdict [(.kstr "b", .vstr "y")])])
        [.kstr "a", .kstr "b"] none := by
  refine ⟨by simp, by decide, ?_⟩
  exact c8_dotted_segmented_agree
    (.vdict [(.kstr "a", .vdict [(.kstr "b", .vstr "y")])])
    [.kstr "a", .kstr "b"] none (by simp) (by decide)

